import Mathlib

/-!
Shallow embedding of the connection-establishment layer of go-libp2p:
the QUIC listener accept loop (`p2p/transport/quic/listener.go`), the
circuit-relay client transport and the no-op peerstore cache
(`p2p/host/peerstore/pstoreds/cache.go`).

External collaborators (quicreuse, resource manager, TLS identity
extraction, upgrader) are modelled as per-call oracle outcomes attached
to the raw session / dial attempt; the control flow of the embedded
functions mirrors the Go source line by line.  Side effects (scope
`Done` calls, `OpenConnection` calls, connection closes with an
application error code, hole-punch channel deliveries) are made explicit
as effect / trace lists so that "exactly once" claims become countable
statements.
-/

namespace Libp2p

/-- A multiaddress, modelled as its list of protocol components
(protocol code paired with the component value), in order. -/
abbrev Multiaddr := List (Nat × String)

/-- Protocol code of the `quic-v1` component (`ma.P_QUIC_V1`). -/
def P_QUIC_V1 : Nat := 461

/-- Protocol code of the `p2p-circuit` component (`ma.P_CIRCUIT`). -/
def P_CIRCUIT : Nat := 290

/-- `Multiaddr.ValueForProtocol`: value of the first component carrying
the given protocol code, or an error when the address has no such
component. -/
def ValueForProtocol (a : Multiaddr) (code : Nat) : Except Unit String :=
  match a.find? (fun c => c.1 == code) with
  | some c => .ok c.2
  | none => .error ()

/-- QUIC wire versions (`quic.Version`); `1` is `quic.Version1`. -/
abbrev QuicVersion := Nat

/-- `quic.Version1`. -/
def Version1 : QuicVersion := 1

/-- Connection direction (`network.Direction`). -/
inductive Dir where
  | inbound
  | outbound
  deriving DecidableEq, Repr

/-- Application error codes used to close raw QUIC sessions
(`network.ConnErrorCode`); the two used by the listener are kept
distinguishable. -/
inductive ConnErrorCode where
  | resourceLimitExceeded
  | gated
  deriving DecidableEq, Repr

/-- A raw QUIC session as the listener sees it (`*quic.Conn`), together
with the outcome every external call on it would produce:
`toQuicMaddr` is the result of `quicreuse.ToQuicMultiaddr(RemoteAddr,
Version)`, `preScope` the scope found by
`network.UnwrapConnManagementScope(qconn.Context())` (none when that
call errors or yields nil), `openConnScope` what
`rcmgr.OpenConnection(DirInbound, false, remoteMultiaddr)` would return,
`pubKey` the result of `p2ptls.PubKeyFromCertChain` on the session's
peer certificates, `peerId` the result of `peer.IDFromPublicKey` on that
key, and `setPeerOk` whether `connScope.SetPeer` would succeed. -/
structure QConn where
  remoteAddrStr : String
  version : QuicVersion
  toQuicMaddr : Option Multiaddr
  preScope : Option Nat
  openConnScope : Option Nat
  pubKey : Option Nat
  peerId : Option Nat
  setPeerOk : Bool
  deriving DecidableEq, Repr

/-- The wrapped libp2p connection (`*conn`). -/
structure Conn where
  quicConn : QConn
  scope : Nat
  localPeer : Nat
  localMultiaddr : Multiaddr
  remoteMultiaddr : Multiaddr
  remotePeerID : Nat
  remotePubKey : Nat
  deriving DecidableEq, Repr

/-- Connection gater (`connmgr.ConnectionGater`), restricted to the two
hooks the accept loop invokes. -/
structure Gater where
  interceptAccept : Conn → Bool
  interceptSecured : Dir → Nat → Conn → Bool

/-- The QUIC listener (`listener`), with the transport state it reads:
the precomputed local multiaddress table and the transport's gater. -/
structure Listener where
  localMultiaddrs : List (QuicVersion × Multiaddr)
  gater : Option Gater
  localPeer : Nat

/-- Association-list lookup, mirroring a Go map read. -/
def alistFind (l : List (QuicVersion × Multiaddr)) (v : QuicVersion) :
    Option Multiaddr :=
  match l.find? (fun e => e.1 == v) with
  | some e => some e.2
  | none => none

/-- Association-list insert/overwrite, mirroring a Go map write. -/
def alistPut (l : List (QuicVersion × Multiaddr)) (v : QuicVersion)
    (a : Multiaddr) : List (QuicVersion × Multiaddr) :=
  match l with
  | [] => [(v, a)]
  | e :: rest => if e.1 == v then (v, a) :: rest else e :: alistPut rest v a

/-- `newListener`: populates the local multiaddress table, keying under
`quic.Version1` every listen address that carries a `quic-v1`
component. -/
def newListener (maddrs : List Multiaddr) (localPeer : Nat)
    (gater : Option Gater) : Listener :=
  let localMultiaddrs := maddrs.foldl
    (fun acc addr =>
      match ValueForProtocol addr P_QUIC_V1 with
      | .ok _ => alistPut acc Version1 addr
      | .error _ => acc)
    []
  { localMultiaddrs := localMultiaddrs, gater := gater,
    localPeer := localPeer }

/-- Errors `wrapConn` / `wrapConnWithScope` can produce, one per
distinct failing call site. -/
inductive WrapErr where
  | toMultiaddrFailed
  | openConnFailed
  | pubKeyFailed
  | peerIdFailed
  | setPeerFailed
  | unknownVersion
  deriving DecidableEq, Repr

/-- Observable side effects of `wrapConn`: a call to
`rcmgr.OpenConnection` with its direction and address, and a call to
`connScope.Done()`. -/
inductive WEffect where
  | openConn (dir : Dir) (addr : Multiaddr)
  | done (scope : Nat)
  deriving DecidableEq, Repr

/-- `wrapConnWithScope`: extract the remote public key from the verified
certificate chain, derive the peer identity, bind the scope to it, and
resolve the local multiaddress for the negotiated QUIC version; builds
the `conn` on success.  Calls no effectful operation itself. -/
def wrapConnWithScope (l : Listener) (q : QConn) (connScope : Nat)
    (remoteMultiaddr : Multiaddr) : Except WrapErr Conn :=
  match q.pubKey with
  | none => .error .pubKeyFailed
  | some remotePubKey =>
    match q.peerId with
    | none => .error .peerIdFailed
    | some remotePeerID =>
      if !q.setPeerOk then .error .setPeerFailed
      else
        match alistFind l.localMultiaddrs q.version with
        | none => .error .unknownVersion
        | some localMultiaddr =>
          .ok { quicConn := q, scope := connScope, localPeer := l.localPeer,
                localMultiaddr := localMultiaddr,
                remoteMultiaddr := remoteMultiaddr,
                remotePeerID := remotePeerID, remotePubKey := remotePubKey }

/-- `wrapConn`: derive the remote multiaddress, reuse a pre-attached
scope or open a new inbound one, then delegate to `wrapConnWithScope`;
on a failure after scope acquisition it calls `connScope.Done()` once
before propagating the error.  The returned effect list records the
`OpenConnection` and `Done` calls in order. -/
def wrapConn (l : Listener) (q : QConn) :
    Except WrapErr Conn × List WEffect :=
  match q.toQuicMaddr with
  | none => (.error .toMultiaddrFailed, [])
  | some remoteMultiaddr =>
    match q.preScope with
    | some connScope =>
      match wrapConnWithScope l q connScope remoteMultiaddr with
      | .error e => (.error e, [.done connScope])
      | .ok c => (.ok c, [])
    | none =>
      match q.openConnScope with
      | none => (.error .openConnFailed, [.openConn .inbound remoteMultiaddr])
      | some connScope =>
        match wrapConnWithScope l q connScope remoteMultiaddr with
        | .error e =>
          (.error e, [.openConn .inbound remoteMultiaddr, .done connScope])
        | .ok c => (.ok c, [.openConn .inbound remoteMultiaddr])

/-- Number of `Done` calls on a given scope in an effect list. -/
def doneCount (effs : List WEffect) (s : Nat) : Nat :=
  effs.countP (fun e => decide (e = .done s))

/-- Number of `OpenConnection` calls in an effect list. -/
def openConnCount (effs : List WEffect) : Nat :=
  effs.countP (fun e => match e with | .openConn _ _ => true | _ => false)

/-- The scope `wrapConn` acquires for a session whose address derivation
succeeded: the pre-attached one when present, else the one the resource
manager grants. -/
def acquiredScope (q : QConn) : Option Nat :=
  match q.preScope with
  | some s => some s
  | none => q.openConnScope

/-- Hole-punch rendezvous key (`holePunchKey`): remote socket address
string paired with the remote peer identity. -/
abbrev HKey := String × Nat

/-- Transport state the accept loop reads and mutates: the hole-punch
registry (`transport.holePunching`, key to `fulfilled` flag of the
registered record) and the active-connection table
(`transport.addConn`). -/
structure TState where
  holePunching : List (HKey × Bool)
  conns : List (QConn × Conn)
  deriving DecidableEq, Repr

/-- Registry lookup: the `fulfilled` flag of the record registered under
a key, or `none` when no record is registered. -/
def hpFind (m : List (HKey × Bool)) (k : HKey) : Option Bool :=
  match m.find? (fun e => decide (e.1 = k)) with
  | some e => some e.2
  | none => none

/-- Mark the record registered under a key as fulfilled
(`holePunch.fulfilled = true`). -/
def hpSetFulfilled : List (HKey × Bool) → HKey → List (HKey × Bool)
  | [], _ => []
  | e :: rest, k =>
    if e.1 = k then (k, true) :: rest else e :: hpSetFulfilled rest k

/-- The accept loop's gating test: a configured gater rejects the
connection when not both `InterceptAccept` and `InterceptSecured`
(inbound, remote peer) accept it; with no gater nothing is rejected. -/
def gaterRejects (l : Listener) (c : Conn) : Bool :=
  match l.gater with
  | none => false
  | some g =>
    !(g.interceptAccept c && g.interceptSecured .inbound c.remotePeerID c)

/-- One outcome of `reuseListener.Accept`: a transport-level error or a
raw QUIC session. -/
inductive AcceptEvent where
  | rawErr
  | rawConn (q : QConn)
  deriving DecidableEq, Repr

/-- Observable events of the accept loop: closing a raw session with
the resource-limit code, closing a wrapped connection with the gated
code, delivering a connection on a hole-punch record's channel, and
returning a connection from `Accept` to the caller. -/
inductive TraceEv where
  | closedResourceLimit (q : QConn)
  | closedGated (c : Conn)
  | delivered (k : HKey) (c : Conn)
  | returned (c : Conn)
  deriving DecidableEq, Repr

/-- The accept loop (`Accept`), run over a stream of raw-accept
outcomes.  Each `Accept` call loops until it returns a connection
(`returned` trace event, loop state persists into the next call) or a
transport-level error (result flag `true`, loop exits); wrap failures
close the session with the resource-limit code and continue; gated
connections are closed with the gated code and the loop continues;
a session matching an unfulfilled hole-punch record is delivered on the
record's channel, the record marked fulfilled, and the loop continues.
Returns (ended with transport error, final state, trace). -/
def acceptRun (l : Listener) :
    TState → List AcceptEvent → Bool × TState × List TraceEv
  | st, [] => (false, st, [])
  | st, .rawErr :: _ => (true, st, [])
  | st, .rawConn q :: rest =>
    match wrapConn l q with
    | (.error _, _) =>
      let r := acceptRun l st rest
      (r.1, r.2.1, .closedResourceLimit q :: r.2.2)
    | (.ok c, _) =>
      let st1 : TState := { st with conns := (q, c) :: st.conns }
      if gaterRejects l c then
        let r := acceptRun l st1 rest
        (r.1, r.2.1, .closedGated c :: r.2.2)
      else
        let key : HKey := (q.remoteAddrStr, c.remotePeerID)
        match hpFind st1.holePunching key with
        | some false =>
          let st2 : TState :=
            { st1 with holePunching := hpSetFulfilled st1.holePunching key }
          let r := acceptRun l st2 rest
          (r.1, r.2.1, .delivered key c :: r.2.2)
        | _ =>
          let r := acceptRun l st1 rest
          (r.1, r.2.1, .returned c :: r.2.2)

/-- Number of hole-punch channel deliveries for a given key in a
trace. -/
def deliveredCount (tr : List TraceEv) (k : HKey) : Nat :=
  tr.countP (fun e => match e with
    | .delivered k2 _ => decide (k2 = k)
    | _ => false)

/-- The connections a trace returns from `Accept` to the caller. -/
def returnedConns (tr : List TraceEv) : List Conn :=
  tr.filterMap (fun e => match e with
    | .returned c => some c
    | _ => none)

/-- The connections a trace delivers to the hole-punch registry. -/
def deliveredConns (tr : List TraceEv) : List Conn :=
  tr.filterMap (fun e => match e with
    | .delivered _ c => some c
    | _ => none)

/-! ### Circuit-relay client transport (`p2p/protocol/circuitv2/client`) -/

/-- Errors of `Client.Dial` / `Client.dialAndUpgrade`, one per failing
call site. -/
inductive DialErr where
  | openConnFailed
  | setPeerFailed
  | dialFailed
  | upgradeFailed
  deriving DecidableEq, Repr

/-- Outcomes of the external calls one `Client.Dial` attempt performs:
the scope `OpenConnection(DirOutbound, false, a)` would grant, whether
`connScope.SetPeer(p)` succeeds, the raw relayed session `c.dial` would
produce, and whether `upgrader.Upgrade` succeeds. -/
structure DialOracle where
  openConnScope : Option Nat
  setPeerOk : Bool
  dialRaw : Option Nat
  upgradeOk : Bool
  deriving DecidableEq, Repr

/-- The capable connection `Client.Dial` produces: the upgraded
connection owning the raw relayed session and the resource scope. -/
structure RelayCapConn where
  raw : Nat
  scope : Nat
  deriving DecidableEq, Repr

/-- Observable side effects of a `Client.Dial` attempt. -/
inductive DEffect where
  | openConn (dir : Dir) (addr : Multiaddr)
  | done (scope : Nat)
  | rawOpened (raw : Nat)
  | tagHop (raw : Nat)
  | rawClosed (raw : Nat)
  deriving DecidableEq, Repr

/-- Modelled from the spec: the upgrader (`upgrader.Upgrade`), whose
code is not under `src/`.  Per §6 it turns a raw session, direction,
peer and scope into a capable connection or an error, and per §7's
propagation policy ("every error returned up the stack has already
guaranteed no leaked scope or dangling raw session") a failed upgrade
leaves no dangling raw session: it closes the session it was handed,
while a successful upgrade embeds the session in the returned
connection. -/
def upgrade (o : DialOracle) (raw : Nat) (connScope : Nat) :
    Except DialErr RelayCapConn × List DEffect :=
  if o.upgradeOk then
    (.ok { raw := raw, scope := connScope }, [])
  else
    (.error .upgradeFailed, [.rawClosed raw])

/-- `Client.dialAndUpgrade`: bind the scope to the target peer, perform
the raw relayed dial, tag the session as a relay hop, and upgrade it;
calls no `Done` itself on any path. -/
def dialAndUpgrade (o : DialOracle) (connScope : Nat) :
    Except DialErr RelayCapConn × List DEffect :=
  if !o.setPeerOk then (.error .setPeerFailed, [])
  else
    match o.dialRaw with
    | none => (.error .dialFailed, [])
    | some raw =>
      let u := upgrade o raw connScope
      (u.1, .rawOpened raw :: .tagHop raw :: u.2)

/-- `Client.Dial`: open an outbound scope for the target address, then
`dialAndUpgrade`; on its failure call `connScope.Done()` once and
propagate the error, on success return the connection (which owns the
scope) without calling `Done`. -/
def ClientDial (o : DialOracle) (a : Multiaddr) :
    Except DialErr RelayCapConn × List DEffect :=
  match o.openConnScope with
  | none => (.error .openConnFailed, [.openConn .outbound a])
  | some connScope =>
    match dialAndUpgrade o connScope with
    | (.error e, effs) =>
      (.error e, .openConn .outbound a :: (effs ++ [.done connScope]))
    | (.ok conn, effs) =>
      (.ok conn, .openConn .outbound a :: effs)

/-- Number of `Done` calls on a given scope in a dial effect list. -/
def dialDoneCount (effs : List DEffect) (s : Nat) : Nat :=
  effs.countP (fun e => decide (e = .done s))

/-- The raw sessions a dial effect list records as opened. -/
def openedRaws (effs : List DEffect) : List Nat :=
  effs.filterMap (fun e => match e with
    | .rawOpened r => some r
    | _ => none)

/-- Whether a dial effect list records the raw session as closed. -/
def rawClosedIn (effs : List DEffect) (r : Nat) : Bool :=
  decide (DEffect.rawClosed r ∈ effs)

namespace Client

/-- `Client.CanDial`: the address must carry a `p2p-circuit`
component. -/
def CanDial (addr : Multiaddr) : Bool :=
  match ValueForProtocol addr P_CIRCUIT with
  | .ok _ => true
  | .error _ => false

/-- `Client.Protocols`: the circuit-relay protocol code, alone. -/
def Protocols : List Nat := [P_CIRCUIT]

/-- `Client.Proxy`. -/
def Proxy : Bool := true

end Client

/-! ### No-op peerstore cache (`pstoreds.noopCache`) -/

/-- `noopCache`: the stateless dummy cache used when caching is
disabled. -/
structure NoopCache (K V : Type) where
  deriving DecidableEq, Repr

/-- `noopCache.Get`: always absent; returns the zero value of `V`. -/
def NoopCache.Get {K V : Type} [Inhabited V] (_ : NoopCache K V) (_ : K) :
    V × Bool :=
  (default, false)

/-- `noopCache.Add`: discards the write. -/
def NoopCache.Add {K V : Type} (c : NoopCache K V) (_ : K) (_ : V) :
    NoopCache K V :=
  c

/-- `noopCache.Remove`: discards the write. -/
def NoopCache.Remove {K V : Type} (c : NoopCache K V) (_ : K) :
    NoopCache K V :=
  c

/-- `noopCache.Contains`: always false. -/
def NoopCache.Contains {K V : Type} (_ : NoopCache K V) (_ : K) : Bool :=
  false

/-- `noopCache.Peek`: always absent; returns the zero value of `V`. -/
def NoopCache.Peek {K V : Type} [Inhabited V] (_ : NoopCache K V) (_ : K) :
    V × Bool :=
  (default, false)

/-- `noopCache.Keys`: the empty sequence. -/
def NoopCache.Keys {K V : Type} (_ : NoopCache K V) : List K :=
  []

/-- A write operation against the cache interface. -/
inductive CacheOp (K V : Type) where
  | add (k : K) (v : V)
  | remove (k : K)

/-- Apply a sequence of write operations to a no-op cache. -/
def applyOps {K V : Type} (c : NoopCache K V) :
    List (CacheOp K V) → NoopCache K V
  | [] => c
  | .add k v :: rest => applyOps (c.Add k v) rest
  | .remove k :: rest => applyOps (c.Remove k) rest

/-! ## Theorems -/

/-! Case characterizations of `wrapConn`, by the outcome of address
derivation and scope acquisition. -/

lemma wrapConn_eq_of_noMaddr (l : Listener) (q : QConn)
    (hm : q.toQuicMaddr = none) :
    wrapConn l q = (.error .toMultiaddrFailed, []) := by
  unfold wrapConn; rw [hm]

lemma wrapConn_eq_of_pre (l : Listener) (q : QConn) (m : Multiaddr) (s : Nat)
    (hm : q.toQuicMaddr = some m) (hp : q.preScope = some s) :
    wrapConn l q =
      match wrapConnWithScope l q s m with
      | .error e => (.error e, [.done s])
      | .ok c => (.ok c, []) := by
  unfold wrapConn; rw [hm, hp]

lemma wrapConn_eq_of_noScope (l : Listener) (q : QConn) (m : Multiaddr)
    (hm : q.toQuicMaddr = some m) (hp : q.preScope = none)
    (ho : q.openConnScope = none) :
    wrapConn l q = (.error .openConnFailed, [.openConn .inbound m]) := by
  unfold wrapConn; rw [hm, hp, ho]

lemma wrapConn_eq_of_open (l : Listener) (q : QConn) (m : Multiaddr) (s : Nat)
    (hm : q.toQuicMaddr = some m) (hp : q.preScope = none)
    (ho : q.openConnScope = some s) :
    wrapConn l q =
      match wrapConnWithScope l q s m with
      | .error e => (.error e, [.openConn .inbound m, .done s])
      | .ok c => (.ok c, [.openConn .inbound m]) := by
  unfold wrapConn; rw [hm, hp, ho]

lemma wrapConnWithScope_scope (l : Listener) (q : QConn) (s : Nat)
    (m : Multiaddr) (c : Conn) (h : wrapConnWithScope l q s m = .ok c) :
    c.scope = s := by
  unfold wrapConnWithScope at h
  rcases hpk : q.pubKey with _ | pk <;> rw [hpk] at h
  · simp at h
  rcases hpid : q.peerId with _ | pid <;> rw [hpid] at h
  · simp at h
  rcases hsp : q.setPeerOk with _ | _ <;> rw [hsp] at h
  · simp at h
  rcases hla : alistFind l.localMultiaddrs q.version with _ | la <;>
    rw [hla] at h
  · simp at h
  simp only [Bool.not_true, Bool.false_eq_true, if_false, Except.ok.injEq] at h
  rw [← h]

/-- C2: whenever `wrapConn` acquires a scope (address derivation and
scope acquisition both succeed), a failure of any later wrapping step
triggers exactly one `Done` on that scope before the error is
propagated, while on success no `Done` is issued and the returned
connection owns the scope; no run of `wrapConn` ever issues two `Done`
calls on any scope. -/
theorem wrapConn_done_exactly_once (l : Listener) (q : QConn)
    (m : Multiaddr) (s : Nat) (hm : q.toQuicMaddr = some m)
    (hs : acquiredScope q = some s) :
    (∀ e, (wrapConn l q).1 = .error e → doneCount (wrapConn l q).2 s = 1)
    ∧ (∀ c, (wrapConn l q).1 = .ok c →
        doneCount (wrapConn l q).2 s = 0 ∧ c.scope = s)
    ∧ (∀ s2, doneCount (wrapConn l q).2 s2 ≤ 1) := by
  unfold acquiredScope at hs
  rcases hp : q.preScope with _ | ps <;> rw [hp] at hs
  · rcases ho : q.openConnScope with _ | os <;> rw [ho] at hs
    · exact absurd hs (by simp)
    · simp only [Option.some.injEq] at hs
      subst hs
      have hw := wrapConn_eq_of_open l q m os hm hp ho
      rcases hww : wrapConnWithScope l q os m with e0 | c0 <;>
        rw [hww] at hw <;> rw [hw]
      · refine ⟨?_, ?_, ?_⟩
        · intro e _
          simp [doneCount, List.countP_cons]
        · intro c hc
          exact absurd hc (by simp)
        · intro s2
          simp only [doneCount, List.countP_cons, List.countP_nil]
          split_ifs <;> simp_all
      · refine ⟨?_, ?_, ?_⟩
        · intro e he
          exact absurd he (by simp)
        · intro c hc
          simp only [Except.ok.injEq] at hc
          subst hc
          exact ⟨by simp [doneCount, List.countP_cons],
                 wrapConnWithScope_scope l q os m c0 hww⟩
        · intro s2
          simp only [doneCount, List.countP_cons, List.countP_nil]
          split_ifs <;> simp_all
  · simp only [Option.some.injEq] at hs
    subst hs
    have hw := wrapConn_eq_of_pre l q m ps hm hp
    rcases hww : wrapConnWithScope l q ps m with e0 | c0 <;>
      rw [hww] at hw <;> rw [hw]
    · refine ⟨?_, ?_, ?_⟩
      · intro e _
        simp [doneCount, List.countP_cons]
      · intro c hc
        exact absurd hc (by simp)
      · intro s2
        simp only [doneCount, List.countP_cons, List.countP_nil]
        split_ifs <;> simp_all
    · refine ⟨?_, ?_, ?_⟩
      · intro e he
        exact absurd he (by simp)
      · intro c hc
        simp only [Except.ok.injEq] at hc
        subst hc
        exact ⟨by simp [doneCount], wrapConnWithScope_scope l q ps m c0 hww⟩
      · intro s2
        simp [doneCount]

/-- C7: when the raw session carries a pre-attached scope, `wrapConn`
reuses it and performs no `OpenConnection` call; otherwise it opens a
new inbound scope with the derived remote multiaddress; and a Step A
failure (address derivation or scope opening) aborts wrapping with an
error, with no `Done` call made. -/
theorem wrapConn_scope_acquisition (l : Listener) (q : QConn) :
    (q.toQuicMaddr = none → wrapConn l q = (.error .toMultiaddrFailed, []))
    ∧ (∀ m, q.toQuicMaddr = some m →
        (∀ s, q.preScope = some s →
          openConnCount (wrapConn l q).2 = 0
          ∧ (∀ c, (wrapConn l q).1 = .ok c → c.scope = s))
        ∧ (q.preScope = none → q.openConnScope = none →
            wrapConn l q = (.error .openConnFailed, [.openConn .inbound m]))
        ∧ (q.preScope = none → ∀ s, q.openConnScope = some s →
            WEffect.openConn .inbound m ∈ (wrapConn l q).2
            ∧ (∀ c, (wrapConn l q).1 = .ok c → c.scope = s)))
    ∧ ((q.toQuicMaddr = none ∨ (q.preScope = none ∧ q.openConnScope = none)) →
        ∀ s2, doneCount (wrapConn l q).2 s2 = 0) := by
  refine ⟨?_, ?_, ?_⟩
  · intro hm
    exact wrapConn_eq_of_noMaddr l q hm
  · intro m hm
    refine ⟨?_, ?_, ?_⟩
    · intro s hp
      have hw := wrapConn_eq_of_pre l q m s hm hp
      rcases hww : wrapConnWithScope l q s m with e0 | c0 <;>
        rw [hww] at hw <;> rw [hw]
      · exact ⟨by simp [openConnCount], fun c hc => absurd hc (by simp)⟩
      · refine ⟨by simp [openConnCount], fun c hc => ?_⟩
        simp only [Except.ok.injEq] at hc
        subst hc
        exact wrapConnWithScope_scope l q s m c0 hww
    · intro hp ho
      exact wrapConn_eq_of_noScope l q m hm hp ho
    · intro hp s ho
      have hw := wrapConn_eq_of_open l q m s hm hp ho
      rcases hww : wrapConnWithScope l q s m with e0 | c0 <;>
        rw [hww] at hw <;> rw [hw]
      · exact ⟨by simp, fun c hc => absurd hc (by simp)⟩
      · refine ⟨by simp, fun c hc => ?_⟩
        simp only [Except.ok.injEq] at hc
        subst hc
        exact wrapConnWithScope_scope l q s m c0 hww
  · rintro (hm | ⟨hp, ho⟩) s2
    · rw [wrapConn_eq_of_noMaddr l q hm]
      simp [doneCount]
    · rcases hm : q.toQuicMaddr with _ | m
      · rw [wrapConn_eq_of_noMaddr l q hm]
        simp [doneCount]
      · rw [wrapConn_eq_of_noScope l q m hm hp ho]
        simp [doneCount]

/-- Sample values used to witness the listener theorems on concrete
inputs. -/
def mSample : Multiaddr := [(461, "v1")]

def lSample : Listener :=
  { localMultiaddrs := [(Version1, mSample)], gater := none, localPeer := 7 }

def qPre : QConn :=
  { remoteAddrStr := "1.2.3.4:5", version := Version1,
    toQuicMaddr := some mSample, preScope := some 5, openConnScope := none,
    pubKey := some 3, peerId := some 9, setPeerOk := true }

def qBad : QConn := { qPre with setPeerOk := false }

/-- Witness for C2: a session with a pre-attached scope whose `SetPeer`
is refused gets exactly one `Done` on that scope. -/
theorem wrapConn_done_exactly_once_witness :
    doneCount (wrapConn lSample qBad).2 5 = 1 :=
  (wrapConn_done_exactly_once lSample qBad mSample 5 rfl rfl).1
    .setPeerFailed (by rfl)

/-- Witness for C7: a session carrying a pre-attached scope triggers no
`OpenConnection` call. -/
theorem wrapConn_scope_acquisition_witness :
    openConnCount (wrapConn lSample qPre).2 = 0 :=
  (((wrapConn_scope_acquisition lSample qPre).2.1 mSample rfl).1 5 rfl).1

lemma mem_alistPut {l : List (QuicVersion × Multiaddr)} {k : QuicVersion}
    {a : Multiaddr} {e : QuicVersion × Multiaddr} (h : e ∈ alistPut l k a) :
    e ∈ l ∨ e.1 = k := by
  induction l with
  | nil =>
    simp only [alistPut, List.mem_singleton] at h
    right
    rw [h]
  | cons x rest ih =>
    unfold alistPut at h
    split at h
    · rcases List.mem_cons.mp h with h1 | h1
      · right; rw [h1]
      · left; exact List.mem_cons_of_mem _ h1
    · rcases List.mem_cons.mp h with h1 | h1
      · left; rw [h1]; exact List.mem_cons_self _ _
      · rcases ih h1 with h2 | h2
        · left; exact List.mem_cons_of_mem _ h2
        · right; exact h2

lemma newListener_keys (maddrs : List Multiaddr) (p : Nat)
    (g : Option Gater) :
    ∀ e ∈ (newListener maddrs p g).localMultiaddrs, e.1 = Version1 := by
  unfold newListener
  suffices h : ∀ acc : List (QuicVersion × Multiaddr),
      (∀ e ∈ acc, e.1 = Version1) →
      ∀ e ∈ maddrs.foldl
        (fun acc addr =>
          match ValueForProtocol addr P_QUIC_V1 with
          | .ok _ => alistPut acc Version1 addr
          | .error _ => acc) acc, e.1 = Version1 by
    exact h [] (by simp)
  induction maddrs with
  | nil =>
    intro acc hacc e he
    simpa using hacc e he
  | cons a rest ih =>
    intro acc hacc e he
    simp only [List.foldl_cons] at he
    refine ih _ ?_ e he
    intro e2 he2
    rcases hv : ValueForProtocol a P_QUIC_V1 with u | v <;> rw [hv] at he2
    · exact hacc e2 he2
    · rcases mem_alistPut he2 with h2 | h2
      · exact hacc e2 h2
      · exact h2

lemma newListener_find_ne (maddrs : List Multiaddr) (p : Nat)
    (g : Option Gater) (v : QuicVersion) (hv : v ≠ Version1) :
    alistFind (newListener maddrs p g).localMultiaddrs v = none := by
  have hnone : (newListener maddrs p g).localMultiaddrs.find?
      (fun e => e.1 == v) = none := by
    rw [List.find?_eq_none]
    intro x hx
    simp only [beq_iff_eq]
    rw [newListener_keys maddrs p g x hx]
    exact fun hh => hv hh.symm
  unfold alistFind
  rw [hnone]

lemma wrapConnWithScope_eq_of_find_none (l : Listener) (q : QConn)
    (s : Nat) (m : Multiaddr)
    (hfind : alistFind l.localMultiaddrs q.version = none) :
    ∃ e, wrapConnWithScope l q s m = .error e := by
  unfold wrapConnWithScope
  rcases hpk : q.pubKey with _ | pk
  · exact ⟨_, rfl⟩
  rcases hpid : q.peerId with _ | pid
  · exact ⟨_, rfl⟩
  rcases hsp : q.setPeerOk with _ | _
  · exact ⟨.setPeerFailed, rfl⟩
  rw [hfind]
  exact ⟨.unknownVersion, rfl⟩

lemma wrapConnWithScope_unknownVersion (l : Listener) (q : QConn)
    (s : Nat) (m : Multiaddr)
    (hfind : alistFind l.localMultiaddrs q.version = none)
    (hpk : q.pubKey.isSome = true) (hpid : q.peerId.isSome = true)
    (hsp : q.setPeerOk = true) :
    wrapConnWithScope l q s m = .error .unknownVersion := by
  unfold wrapConnWithScope
  rcases hpk2 : q.pubKey with _ | pk
  · rw [hpk2] at hpk; cases hpk
  rcases hpid2 : q.peerId with _ | pid
  · rw [hpid2] at hpid; cases hpid
  rw [hsp, hfind]
  rfl

lemma wrapConn_err_of_find_none (l : Listener) (q : QConn)
    (hfind : alistFind l.localMultiaddrs q.version = none) :
    ∃ e, (wrapConn l q).1 = .error e := by
  rcases hm : q.toQuicMaddr with _ | m
  · exact ⟨.toMultiaddrFailed, by rw [wrapConn_eq_of_noMaddr l q hm]⟩
  rcases hp : q.preScope with _ | ps
  · rcases ho : q.openConnScope with _ | os
    · exact ⟨.openConnFailed, by rw [wrapConn_eq_of_noScope l q m hm hp ho]⟩
    · obtain ⟨e, he⟩ := wrapConnWithScope_eq_of_find_none l q os m hfind
      refine ⟨e, ?_⟩
      rw [wrapConn_eq_of_open l q m os hm hp ho, he]
  · obtain ⟨e, he⟩ := wrapConnWithScope_eq_of_find_none l q ps m hfind
    refine ⟨e, ?_⟩
    rw [wrapConn_eq_of_pre l q m ps hm hp, he]

/-! One-step characterizations of the accept loop. -/

lemma acceptRun_nil (l : Listener) (st : TState) :
    acceptRun l st [] = (false, st, []) := rfl

lemma acceptRun_err (l : Listener) (st : TState) (evs : List AcceptEvent) :
    acceptRun l st (.rawErr :: evs) = (true, st, []) := rfl

lemma acceptRun_wrapFail (l : Listener) (st : TState) (q : QConn)
    (rest : List AcceptEvent) (e : WrapErr)
    (he : (wrapConn l q).1 = .error e) :
    acceptRun l st (.rawConn q :: rest) =
      ((acceptRun l st rest).1, (acceptRun l st rest).2.1,
       .closedResourceLimit q :: (acceptRun l st rest).2.2) := by
  rcases hw : wrapConn l q with ⟨res, effs⟩
  rw [hw] at he
  rcases res with e0 | c0
  · simp only [acceptRun, hw]
  · simp at he

lemma acceptRun_gated (l : Listener) (st : TState) (q : QConn) (c : Conn)
    (rest : List AcceptEvent) (hc : (wrapConn l q).1 = .ok c)
    (hg : gaterRejects l c = true) :
    acceptRun l st (.rawConn q :: rest) =
      ((acceptRun l { st with conns := (q, c) :: st.conns } rest).1,
       (acceptRun l { st with conns := (q, c) :: st.conns } rest).2.1,
       .closedGated c ::
         (acceptRun l { st with conns := (q, c) :: st.conns } rest).2.2) := by
  rcases hw : wrapConn l q with ⟨res, effs⟩
  rw [hw] at hc
  rcases res with e0 | c0
  · simp at hc
  · simp only [Except.ok.injEq] at hc
    subst hc
    simp [acceptRun, hw, hg]

lemma acceptRun_deliver (l : Listener) (st : TState) (q : QConn) (c : Conn)
    (rest : List AcceptEvent) (hc : (wrapConn l q).1 = .ok c)
    (hg : gaterRejects l c = false)
    (hf : hpFind st.holePunching (q.remoteAddrStr, c.remotePeerID) =
      some false) :
    acceptRun l st (.rawConn q :: rest) =
      ((acceptRun l
          { holePunching :=
              hpSetFulfilled st.holePunching (q.remoteAddrStr, c.remotePeerID),
            conns := (q, c) :: st.conns } rest).1,
       (acceptRun l
          { holePunching :=
              hpSetFulfilled st.holePunching (q.remoteAddrStr, c.remotePeerID),
            conns := (q, c) :: st.conns } rest).2.1,
       .delivered (q.remoteAddrStr, c.remotePeerID) c ::
         (acceptRun l
            { holePunching :=
                hpSetFulfilled st.holePunching
                  (q.remoteAddrStr, c.remotePeerID),
              conns := (q, c) :: st.conns } rest).2.2) := by
  rcases hw : wrapConn l q with ⟨res, effs⟩
  rw [hw] at hc
  rcases res with e0 | c0
  · simp at hc
  · simp only [Except.ok.injEq] at hc
    subst hc
    simp [acceptRun, hw, hg, hf]

lemma acceptRun_return (l : Listener) (st : TState) (q : QConn) (c : Conn)
    (rest : List AcceptEvent) (hc : (wrapConn l q).1 = .ok c)
    (hg : gaterRejects l c = false)
    (hf : hpFind st.holePunching (q.remoteAddrStr, c.remotePeerID) = none
      ∨ hpFind st.holePunching (q.remoteAddrStr, c.remotePeerID) =
          some true) :
    acceptRun l st (.rawConn q :: rest) =
      ((acceptRun l { st with conns := (q, c) :: st.conns } rest).1,
       (acceptRun l { st with conns := (q, c) :: st.conns } rest).2.1,
       .returned c ::
         (acceptRun l { st with conns := (q, c) :: st.conns } rest).2.2) := by
  rcases hw : wrapConn l q with ⟨res, effs⟩
  rw [hw] at hc
  rcases res with e0 | c0
  · simp at hc
  · simp only [Except.ok.injEq] at hc
    subst hc
    rcases hf with hf | hf <;> simp [acceptRun, hw, hg, hf]

/-- C10: the local-multiaddress table built by `newListener` is keyed
only under `quic.Version1`; consequently a session negotiating any other
QUIC version fails wrapping (and with all oracle steps succeeding, fails
precisely with the unknown-version error), so the accept loop closes it
with the resource-limit signal, whatever addresses the underlying
listener reported. -/
theorem quic_v1_local_addrs_only (maddrs : List Multiaddr) (p : Nat)
    (g : Option Gater) :
    (∀ e ∈ (newListener maddrs p g).localMultiaddrs, e.1 = Version1)
    ∧ (∀ q : QConn, q.version ≠ Version1 →
        ∃ e, (wrapConn (newListener maddrs p g) q).1 = .error e)
    ∧ (∀ q : QConn, ∀ m s, q.version ≠ Version1 → q.toQuicMaddr = some m →
        acquiredScope q = some s → q.pubKey.isSome = true →
        q.peerId.isSome = true → q.setPeerOk = true →
        (wrapConn (newListener maddrs p g) q).1 = .error .unknownVersion)
    ∧ (∀ q : QConn, ∀ st rest, q.version ≠ Version1 →
        ((acceptRun (newListener maddrs p g) st
            (.rawConn q :: rest)).2.2).head?
          = some (.closedResourceLimit q)) := by
  refine ⟨newListener_keys maddrs p g, ?_, ?_, ?_⟩
  · intro q hv
    exact wrapConn_err_of_find_none _ q
      (newListener_find_ne maddrs p g q.version hv)
  · intro q m s hv hm hs hpk hpid hsp
    have hfind := newListener_find_ne maddrs p g q.version hv
    unfold acquiredScope at hs
    rcases hp : q.preScope with _ | ps <;> rw [hp] at hs
    · rcases ho : q.openConnScope with _ | os <;> rw [ho] at hs
      · exact absurd hs (by simp)
      · rw [wrapConn_eq_of_open _ q m os hm hp ho,
          wrapConnWithScope_unknownVersion _ q os m hfind hpk hpid hsp]
    · rw [wrapConn_eq_of_pre _ q m ps hm hp,
        wrapConnWithScope_unknownVersion _ q ps m hfind hpk hpid hsp]
  · intro q st rest hv
    obtain ⟨e, he⟩ := wrapConn_err_of_find_none _ q
      (newListener_find_ne maddrs p g q.version hv)
    rw [acceptRun_wrapFail _ st q rest e he]
    rfl

/-- A session negotiating QUIC version 2 but otherwise healthy. -/
def qV2 : QConn := { qPre with version := 2 }

/-- Witness for C10: the version-2 session fails wrapping with the
unknown-version error against a listener built from a `quic-v1`
address. -/
theorem quic_v1_local_addrs_only_witness :
    (wrapConn (newListener [mSample] 7 none) qV2).1 =
      .error .unknownVersion :=
  (quic_v1_local_addrs_only [mSample] 7 none).2.2.1 qV2 mSample 5
    (by decide) rfl rfl rfl rfl rfl


/-- C3: `Client.Dial` opens an outbound scope for the target address;
when peer binding, the raw dial, or the upgrade fails it calls the
scope's `Done` exactly once before returning the error with no
connection; when every step succeeds it calls no `Done`, the returned
connection owns the scope, and the session is tagged as a relay hop. -/
theorem client_dial_scope_lifecycle (o : DialOracle) (a : Multiaddr)
    (s : Nat) (hs : o.openConnScope = some s) :
    (∀ e, (ClientDial o a).1 = .error e →
      dialDoneCount (ClientDial o a).2 s = 1)
    ∧ (∀ c, (ClientDial o a).1 = .ok c →
        dialDoneCount (ClientDial o a).2 s = 0 ∧ c.scope = s
        ∧ DEffect.tagHop c.raw ∈ (ClientDial o a).2)
    ∧ DEffect.openConn .outbound a ∈ (ClientDial o a).2 := by
  rcases hsp : o.setPeerOk with _ | _
  · have hd : ClientDial o a =
        (.error .setPeerFailed, [.openConn .outbound a, .done s]) := by
      simp [ClientDial, dialAndUpgrade, hs, hsp]
    rw [hd]
    exact ⟨fun e _ => by simp [dialDoneCount],
      fun c hc => absurd hc (by simp), by simp⟩
  · rcases hdr : o.dialRaw with _ | r
    · have hd : ClientDial o a =
          (.error .dialFailed, [.openConn .outbound a, .done s]) := by
        simp [ClientDial, dialAndUpgrade, hs, hsp, hdr]
      rw [hd]
      exact ⟨fun e _ => by simp [dialDoneCount],
        fun c hc => absurd hc (by simp), by simp⟩
    · rcases hup : o.upgradeOk with _ | _
      · have hd : ClientDial o a =
            (.error .upgradeFailed,
             [.openConn .outbound a, .rawOpened r, .tagHop r,
              .rawClosed r, .done s]) := by
          simp [ClientDial, dialAndUpgrade, upgrade, hs, hsp, hdr, hup]
        rw [hd]
        exact ⟨fun e _ => by simp [dialDoneCount],
          fun c hc => absurd hc (by simp), by simp⟩
      · have hd : ClientDial o a =
            (.ok { raw := r, scope := s },
             [.openConn .outbound a, .rawOpened r, .tagHop r]) := by
          simp [ClientDial, dialAndUpgrade, upgrade, hs, hsp, hdr, hup]
        rw [hd]
        refine ⟨fun e he => absurd he (by simp), fun c hc => ?_, by simp⟩
        simp only [Except.ok.injEq] at hc
        subst hc
        exact ⟨by simp [dialDoneCount], rfl, by simp⟩

/-- Sample dial oracles used by the relay-dial witnesses. -/
def oAllOk : DialOracle :=
  { openConnScope := some 4, setPeerOk := true, dialRaw := some 11,
    upgradeOk := true }

def oUpgradeFail : DialOracle := { oAllOk with upgradeOk := false }

/-- Witness for C3: a fully successful relay dial performs no `Done` on
the scope it acquired. -/
theorem client_dial_scope_lifecycle_witness :
    dialDoneCount (ClientDial oAllOk mSample).2 4 = 0 :=
  ((client_dial_scope_lifecycle oAllOk mSample 4 rfl).2.1
    { raw := 11, scope := 4 } rfl).1

/-- C4: on every error path of `Client.Dial` the acquired scope (when
one was granted) receives exactly one `Done`, and every raw session
opened during the attempt has been closed before the error propagates
— no scope is leaked and no raw session dangles. -/
theorem client_dial_no_dangling (o : DialOracle) (a : Multiaddr)
    (e : DialErr) (he : (ClientDial o a).1 = .error e) :
    (∀ s, o.openConnScope = some s →
      dialDoneCount (ClientDial o a).2 s = 1)
    ∧ (∀ r, r ∈ openedRaws (ClientDial o a).2 →
        rawClosedIn (ClientDial o a).2 r = true) := by
  rcases hso : o.openConnScope with _ | s
  · have hd : ClientDial o a =
        (.error .openConnFailed, [.openConn .outbound a]) := by
      simp [ClientDial, hso]
    rw [hd]
    refine ⟨fun s2 hs2 => ?_, fun r hr => ?_⟩
    · cases hs2
    · exact absurd hr (by simp [openedRaws])
  · rcases hsp : o.setPeerOk with _ | _
    · have hd : ClientDial o a =
          (.error .setPeerFailed, [.openConn .outbound a, .done s]) := by
        simp [ClientDial, dialAndUpgrade, hso, hsp]
      rw [hd]
      refine ⟨fun s2 hs2 => ?_, fun r hr => absurd hr (by simp [openedRaws])⟩
      simp only [Option.some.injEq] at hs2
      subst hs2
      simp [dialDoneCount]
    · rcases hdr : o.dialRaw with _ | r
      · have hd : ClientDial o a =
            (.error .dialFailed, [.openConn .outbound a, .done s]) := by
          simp [ClientDial, dialAndUpgrade, hso, hsp, hdr]
        rw [hd]
        refine ⟨fun s2 hs2 => ?_,
          fun r hr => absurd hr (by simp [openedRaws])⟩
        simp only [Option.some.injEq] at hs2
        subst hs2
        simp [dialDoneCount]
      · rcases hup : o.upgradeOk with _ | _
        · have hd : ClientDial o a =
              (.error .upgradeFailed,
               [.openConn .outbound a, .rawOpened r, .tagHop r,
                .rawClosed r, .done s]) := by
            simp [ClientDial, dialAndUpgrade, upgrade, hso, hsp, hdr, hup]
          rw [hd]
          refine ⟨fun s2 hs2 => ?_, fun r2 hr2 => ?_⟩
          · simp only [Option.some.injEq] at hs2
            subst hs2
            simp [dialDoneCount]
          · have hr : r2 = r := by
              simpa [openedRaws] using hr2
            subst hr
            simp [rawClosedIn]
        · have hd : ClientDial o a =
              (.ok { raw := r, scope := s },
               [.openConn .outbound a, .rawOpened r, .tagHop r]) := by
            simp [ClientDial, dialAndUpgrade, upgrade, hso, hsp, hdr, hup]
          rw [hd] at he
          exact absurd he (by simp)

/-- Witness for C4: when the upgrade fails after a successful raw dial,
the raw session has been closed before the error is returned. -/
theorem client_dial_no_dangling_witness :
    rawClosedIn (ClientDial oUpgradeFail mSample).2 11 = true :=
  (client_dial_no_dangling oUpgradeFail mSample .upgradeFailed rfl).2 11
    (by decide)

/-- C8: `Client.CanDial addr` is true iff `addr` contains a
`p2p-circuit` component; `Client.Protocols` is the single-element
sequence holding only the circuit-relay code; `Client.Proxy` is always
true. -/
theorem relay_transport_predicates :
    (∀ addr : Multiaddr, Client.CanDial addr = true ↔ ∃ v, (P_CIRCUIT, v) ∈ addr)
    ∧ Client.Protocols = [P_CIRCUIT]
    ∧ Client.Proxy = true := by
  refine ⟨?_, rfl, rfl⟩
  intro addr
  have hiff : Client.CanDial addr = true ↔
      (addr.find? (fun c => c.1 == P_CIRCUIT)).isSome := by
    unfold Client.CanDial ValueForProtocol
    rcases h : List.find? (fun c => c.1 == P_CIRCUIT) addr with _ | c <;>
      rw [h] <;> simp
  rw [hiff, Option.isSome_iff_exists]
  constructor
  · rintro ⟨c, hc⟩
    have hp := List.find?_some hc
    have hmem := List.mem_of_find?_eq_some hc
    simp only [beq_iff_eq] at hp
    exact ⟨c.2, by rw [← hp]; simpa using hmem⟩
  · rintro ⟨v, hv⟩
    have : ∃ x, x ∈ addr ∧ (fun c : Nat × String => c.1 == P_CIRCUIT) x = true :=
      ⟨(P_CIRCUIT, v), hv, by simp⟩
    rw [← List.find?_isSome] at this
    exact Option.isSome_iff_exists.mp this

/-- C9: after any sequence of `Add` / `Remove` operations on the no-op
cache, `Get` and `Peek` return the zero value paired with `false`,
`Contains` is false, and `Keys` is empty. -/
theorem noop_cache_contract {K V : Type} [Inhabited V] (c : NoopCache K V)
    (ops : List (CacheOp K V)) (k : K) :
    (applyOps c ops).Get k = (default, false)
    ∧ (applyOps c ops).Peek k = (default, false)
    ∧ (applyOps c ops).Contains k = false
    ∧ (applyOps c ops).Keys = ([] : List K) :=
  ⟨rfl, rfl, rfl, rfl⟩

/-- The sample QConn with a failing certificate-chain extraction. -/
def qNoKey : QConn := { qPre with pubKey := none }

/-- The empty transport state. -/
def st0 : TState := { holePunching := [], conns := [] }

/-- C6: a transport-level error from the raw accept primitive is fatal:
`Accept` returns it to the caller and the loop exits with no further
processing; a wrapping failure is never fatal: the raw session is
closed with the resource-limit code and the loop continues with the
next accept. -/
theorem accept_error_classification (l : Listener) (st : TState)
    (evs : List AcceptEvent) (q : QConn) :
    acceptRun l st (.rawErr :: evs) = (true, st, [])
    ∧ (∀ e, (wrapConn l q).1 = .error e →
        acceptRun l st (.rawConn q :: evs) =
          ((acceptRun l st evs).1, (acceptRun l st evs).2.1,
           .closedResourceLimit q :: (acceptRun l st evs).2.2)) :=
  ⟨acceptRun_err l st evs, fun e he => acceptRun_wrapFail l st q evs e he⟩

/-- Witness for C6: a session whose identity extraction fails is closed
with the resource-limit code and the loop goes on. -/
theorem accept_error_classification_witness :
    acceptRun lSample st0 [.rawConn qNoKey] =
      ((acceptRun lSample st0 []).1, (acceptRun lSample st0 []).2.1,
       .closedResourceLimit qNoKey :: (acceptRun lSample st0 []).2.2) :=
  (accept_error_classification lSample st0 [] qNoKey).2 .pubKeyFailed rfl

/-- C5: with a configured gater, any wrapped connection that the gater
rejects (by its accept interception or its post-security interception)
is closed with the gated signal and the loop continues, so a gated
connection is never returned from `Accept` and never delivered to the
hole-punch registry; in particular, when the gater rejects every
connection, no run of the accept loop ever returns a connection or
delivers one to the registry. -/
theorem gating_enforcement (l : Listener) (g : Gater)
    (hg : l.gater = some g) :
    (∀ st : TState, ∀ q c, ∀ rest : List AcceptEvent,
      (wrapConn l q).1 = .ok c →
      (g.interceptAccept c
        && g.interceptSecured .inbound c.remotePeerID c) = false →
      acceptRun l st (.rawConn q :: rest) =
        ((acceptRun l { st with conns := (q, c) :: st.conns } rest).1,
         (acceptRun l { st with conns := (q, c) :: st.conns } rest).2.1,
         .closedGated c ::
           (acceptRun l { st with conns := (q, c) :: st.conns } rest).2.2))
    ∧ ((∀ c : Conn,
          (g.interceptAccept c
            && g.interceptSecured .inbound c.remotePeerID c) = false) →
        ∀ st evs, returnedConns (acceptRun l st evs).2.2 = []
          ∧ deliveredConns (acceptRun l st evs).2.2 = []) := by
  have hrejOf : ∀ c : Conn,
      (g.interceptAccept c
        && g.interceptSecured .inbound c.remotePeerID c) = false →
      gaterRejects l c = true := by
    intro c hrc
    unfold gaterRejects
    rw [hg]
    simp [hrc]
  refine ⟨fun st q c rest hc hrc =>
    acceptRun_gated l st q c rest hc (hrejOf c hrc), ?_⟩
  intro hrej st evs
  induction evs generalizing st with
  | nil => simp [acceptRun_nil, returnedConns, deliveredConns]
  | cons ev rest ih =>
    rcases ev with _ | q
    · simp [acceptRun_err, returnedConns, deliveredConns]
    · rcases hw : (wrapConn l q).1 with e0 | c0
      · rw [acceptRun_wrapFail l st q rest e0 hw]
        simpa [returnedConns, deliveredConns] using ih st
      · rw [acceptRun_gated l st q c0 rest hw (hrejOf c0 (hrej c0))]
        simpa [returnedConns, deliveredConns]
          using ih { st with conns := (q, c0) :: st.conns }

/-- A gater that rejects every connection. -/
def gRejectAll : Gater :=
  { interceptAccept := fun _ => false, interceptSecured := fun _ _ _ => false }

def lRejectAll : Listener := { lSample with gater := some gRejectAll }

/-- Witness for C5: the reject-all listener returns no connection from a
concrete run. -/
theorem gating_enforcement_witness :
    returnedConns (acceptRun lRejectAll st0 [.rawConn qPre]).2.2 = [] :=
  ((gating_enforcement lRejectAll gRejectAll rfl).2 (fun _ => rfl)
    st0 [.rawConn qPre]).1

/-! Registry lemmas: marking a record fulfilled flips exactly that
record's flag and leaves every other key's record alone. -/

lemma find?_hpSetFulfilled_self (k : HKey) :
    ∀ m : List (HKey × Bool),
      (m.find? (fun e => decide (e.1 = k))).isSome = true →
      (hpSetFulfilled m k).find? (fun e => decide (e.1 = k)) =
        some (k, true) := by
  intro m
  induction m with
  | nil => intro h; simp at h
  | cons e rest ih =>
    intro h
    unfold hpSetFulfilled
    by_cases he : e.1 = k
    · rw [if_pos he]
      rw [List.find?_cons_of_pos _ (by simp)]
    · rw [if_neg he]
      rw [List.find?_cons_of_neg _ (by simp [he])]
      refine ih ?_
      rw [List.find?_cons_of_neg _ (by simp [he])] at h
      exact h

lemma find?_hpSetFulfilled_ne (kset kq : HKey) (hne : kq ≠ kset) :
    ∀ m : List (HKey × Bool),
      (hpSetFulfilled m kset).find? (fun e => decide (e.1 = kq)) =
        m.find? (fun e => decide (e.1 = kq)) := by
  intro m
  induction m with
  | nil => rfl
  | cons e rest ih =>
    unfold hpSetFulfilled
    by_cases he : e.1 = kset
    · rw [if_pos he]
      rw [List.find?_cons_of_neg _
          (by simp only [decide_eq_true_eq]; exact fun h => hne h.symm),
        List.find?_cons_of_neg _
          (by simp only [decide_eq_true_eq, he]; exact fun h => hne h.symm)]
    · rw [if_neg he]
      by_cases heq : e.1 = kq
      · rw [List.find?_cons_of_pos _ (by simp [heq]),
          List.find?_cons_of_pos _ (by simp [heq])]
      · rw [List.find?_cons_of_neg _ (by simp [heq]),
          List.find?_cons_of_neg _ (by simp [heq])]
        exact ih

lemma hpFind_hpSetFulfilled_self (m : List (HKey × Bool)) (k : HKey)
    (h : hpFind m k = some false) :
    hpFind (hpSetFulfilled m k) k = some true := by
  have hs : (m.find? (fun e => decide (e.1 = k))).isSome = true := by
    unfold hpFind at h
    rcases hf : m.find? (fun e => decide (e.1 = k)) with _ | e <;>
      rw [hf] at h
    · cases h
    · rw [hf]
      rfl
  unfold hpFind
  rw [find?_hpSetFulfilled_self k m hs]

lemma hpFind_hpSetFulfilled_ne (m : List (HKey × Bool)) (kset kq : HKey)
    (hne : kq ≠ kset) :
    hpFind (hpSetFulfilled m kset) kq = hpFind m kq := by
  unfold hpFind
  rw [find?_hpSetFulfilled_ne kset kq hne m]

/-! Trace-count lemmas for `deliveredCount`. -/

lemma deliveredCount_nil (k : HKey) : deliveredCount [] k = 0 := rfl

lemma deliveredCount_cons_closedRL (q : QConn) (tr : List TraceEv)
    (k : HKey) :
    deliveredCount (.closedResourceLimit q :: tr) k = deliveredCount tr k := by
  simp [deliveredCount, List.countP_cons]

lemma deliveredCount_cons_closedGated (c : Conn) (tr : List TraceEv)
    (k : HKey) :
    deliveredCount (.closedGated c :: tr) k = deliveredCount tr k := by
  simp [deliveredCount, List.countP_cons]

lemma deliveredCount_cons_returned (c : Conn) (tr : List TraceEv)
    (k : HKey) :
    deliveredCount (.returned c :: tr) k = deliveredCount tr k := by
  simp [deliveredCount, List.countP_cons]

lemma deliveredCount_cons_self (c : Conn) (tr : List TraceEv) (k : HKey) :
    deliveredCount (.delivered k c :: tr) k = deliveredCount tr k + 1 := by
  simp [deliveredCount, List.countP_cons]

lemma deliveredCount_cons_ne (k2 : HKey) (c : Conn) (tr : List TraceEv)
    (k : HKey) (h : k2 ≠ k) :
    deliveredCount (.delivered k2 c :: tr) k = deliveredCount tr k := by
  simp [deliveredCount, List.countP_cons, h]

/-- The central registry invariant: a run of the accept loop makes no
delivery for a key whose record is absent or already fulfilled, and at
most one delivery for a key registered unfulfilled. -/
lemma deliveredCount_bound (l : Listener) (k : HKey) :
    ∀ (evs : List AcceptEvent) (st : TState),
      deliveredCount (acceptRun l st evs).2.2 k ≤
        (if hpFind st.holePunching k = some false then 1 else 0) := by
  intro evs
  induction evs with
  | nil =>
    intro st
    simp [acceptRun_nil, deliveredCount_nil]
  | cons ev rest ih =>
    intro st
    rcases ev with _ | q
    · simp [acceptRun_err, deliveredCount_nil]
    · rcases hw : (wrapConn l q).1 with e0 | c0
      · rw [acceptRun_wrapFail l st q rest e0 hw]
        simp only [deliveredCount_cons_closedRL]
        exact ih st
      · by_cases hg : gaterRejects l c0 = true
        · rw [acceptRun_gated l st q c0 rest hw hg]
          simp only [deliveredCount_cons_closedGated]
          exact ih { st with conns := (q, c0) :: st.conns }
        · have hg2 : gaterRejects l c0 = false := by
            rcases hgb : gaterRejects l c0 with _ | _
            · rfl
            · exact absurd hgb hg
          rcases hf : hpFind st.holePunching
              (q.remoteAddrStr, c0.remotePeerID) with _ | b
          · rw [acceptRun_return l st q c0 rest hw hg2 (Or.inl hf)]
            simp only [deliveredCount_cons_returned]
            exact ih { st with conns := (q, c0) :: st.conns }
          · rcases b with _ | _
            · rw [acceptRun_deliver l st q c0 rest hw hg2 hf]
              by_cases hk : (q.remoteAddrStr, c0.remotePeerID) = k
              · rw [hk] at hf ⊢
                rw [deliveredCount_cons_self, if_pos hf]
                have hafter := hpFind_hpSetFulfilled_self
                  st.holePunching k hf
                have ihs := ih
                  { holePunching := hpSetFulfilled st.holePunching k,
                    conns := (q, c0) :: st.conns }
                rw [show hpFind
                    (TState.holePunching
                      { holePunching := hpSetFulfilled st.holePunching k,
                        conns := (q, c0) :: st.conns }) k = some true
                  from hafter] at ihs
                simp only [if_neg (by simp : ¬(some true = some false))]
                  at ihs
                omega
              · rw [deliveredCount_cons_ne _ _ _ _ hk]
                have ihs := ih
                  { holePunching := hpSetFulfilled st.holePunching
                      (q.remoteAddrStr, c0.remotePeerID),
                    conns := (q, c0) :: st.conns }
                rw [show hpFind
                    (TState.holePunching
                      { holePunching := hpSetFulfilled st.holePunching
                          (q.remoteAddrStr, c0.remotePeerID),
                        conns := (q, c0) :: st.conns }) k
                      = hpFind st.holePunching k
                  from hpFind_hpSetFulfilled_ne st.holePunching _ k
                    (fun h => hk h.symm)]
                  at ihs
                exact ihs
            · rw [acceptRun_return l st q c0 rest hw hg2 (Or.inr hf)]
              simp only [deliveredCount_cons_returned]
              exact ih { st with conns := (q, c0) :: st.conns }

/-- C1: rendezvous exclusivity.  At most one connection is ever
delivered on a record's channel (none when the record is absent or
fulfilled at the start of the run); a wrapped un-gated session matching
a registered unfulfilled record is delivered on that record's channel,
the record is marked fulfilled, and the loop continues without
returning the connection; and once the record is fulfilled a later
session matching the same key is returned from `Accept` as an ordinary
inbound connection. -/
theorem rendezvous_exclusivity (l : Listener) (st : TState)
    (evs : List AcceptEvent) (k : HKey) :
    (deliveredCount (acceptRun l st evs).2.2 k ≤
      (if hpFind st.holePunching k = some false then 1 else 0))
    ∧ (∀ q c, ∀ rest : List AcceptEvent, (wrapConn l q).1 = .ok c →
        gaterRejects l c = false →
        hpFind st.holePunching (q.remoteAddrStr, c.remotePeerID) =
          some false →
        acceptRun l st (.rawConn q :: rest) =
          ((acceptRun l
              { holePunching := hpSetFulfilled st.holePunching
                  (q.remoteAddrStr, c.remotePeerID),
                conns := (q, c) :: st.conns } rest).1,
           (acceptRun l
              { holePunching := hpSetFulfilled st.holePunching
                  (q.remoteAddrStr, c.remotePeerID),
                conns := (q, c) :: st.conns } rest).2.1,
           .delivered (q.remoteAddrStr, c.remotePeerID) c ::
             (acceptRun l
                { holePunching := hpSetFulfilled st.holePunching
                    (q.remoteAddrStr, c.remotePeerID),
                  conns := (q, c) :: st.conns } rest).2.2))
    ∧ (∀ q c, ∀ rest : List AcceptEvent, (wrapConn l q).1 = .ok c →
        gaterRejects l c = false →
        hpFind st.holePunching (q.remoteAddrStr, c.remotePeerID) =
          some true →
        acceptRun l st (.rawConn q :: rest) =
          ((acceptRun l { st with conns := (q, c) :: st.conns } rest).1,
           (acceptRun l { st with conns := (q, c) :: st.conns } rest).2.1,
           .returned c ::
             (acceptRun l
                { st with conns := (q, c) :: st.conns } rest).2.2)) := by
  refine ⟨deliveredCount_bound l k evs st, ?_, ?_⟩
  · intro q c rest hc hg hf
    exact acceptRun_deliver l st q c rest hc hg hf
  · intro q c rest hc hg hf
    exact acceptRun_return l st q c rest hc hg (Or.inr hf)

/-- The connection `wrapConn` builds from `qPre` against `lSample`. -/
def cPre : Conn :=
  { quicConn := qPre, scope := 5, localPeer := 7, localMultiaddr := mSample,
    remoteMultiaddr := mSample, remotePeerID := 9, remotePubKey := 3 }

/-- A transport state with one unfulfilled hole-punch record matching
`qPre`'s rendezvous key. -/
def stHP : TState :=
  { holePunching := [(("1.2.3.4:5", 9), false)], conns := [] }

/-- Witness for C1: a concrete matching session is delivered on the
record's channel and the record marked fulfilled. -/
theorem rendezvous_exclusivity_witness :
    acceptRun lSample stHP [.rawConn qPre] =
      ((acceptRun lSample
          { holePunching := hpSetFulfilled stHP.holePunching
              ("1.2.3.4:5", 9),
            conns := [(qPre, cPre)] } []).1,
       (acceptRun lSample
          { holePunching := hpSetFulfilled stHP.holePunching
              ("1.2.3.4:5", 9),
            conns := [(qPre, cPre)] } []).2.1,
       .delivered ("1.2.3.4:5", 9) cPre ::
         (acceptRun lSample
            { holePunching := hpSetFulfilled stHP.holePunching
                ("1.2.3.4:5", 9),
              conns := [(qPre, cPre)] } []).2.2) :=
  (rendezvous_exclusivity lSample stHP [.rawConn qPre]
      ("1.2.3.4:5", 9)).2.1 qPre cPre [] rfl rfl (by decide)

end Libp2p
